import Mathlib

/-!
Shallow embedding of the quality-scoring and transformation engine of the
open-data product pipeline (`pipeline/quality.py`, `pipeline/transformer.py`,
`pipeline/enricher.py`).

The Tabular Container (a pandas DataFrame in the source) is modelled as a
header of named, dtype-tagged columns together with a list of rows of cells.
Machine floats are modelled as exact rationals; NaN/None is the explicit
`Cell.missing` marker.  All definitions are executable and follow the source
code, not the specification text; definitions that follow the specification's
words instead are clearly marked `spec`.
-/

namespace OpenDataPipeline

/-- One cell of the tabular container: pandas scalars are modelled as exact
rationals for numeric data, strings for object data, and an explicit
missing marker for NaN/None. -/
inductive Cell where
  | missing : Cell
  | num : ℚ → Cell
  | str : String → Cell
deriving DecidableEq

/-- Column dtype, as used by `select_dtypes`: numeric columns versus
object (text) columns. -/
inductive ColType where
  | numeric : ColType
  | object : ColType
deriving DecidableEq

/-- The Tabular Container: a pandas DataFrame modelled as a header of
(name, dtype) pairs plus a list of rows; row `r` has the cell of column `i`
at position `i`. -/
structure DF where
  header : List (String × ColType)
  rows : List (List Cell)
deriving DecidableEq

/-- Index of the first column with the given name, starting the count at
`k`. -/
def colIdxAux (c : String) : List (String × ColType) → Nat → Option Nat
  | [], _ => none
  | (n, _) :: t, k => if n = c then some k else colIdxAux c t (k + 1)

/-- Index of the first column with the given name (`df.columns.get_loc`). -/
def DF.colIdx (df : DF) (c : String) : Option Nat :=
  colIdxAux c df.header 0

/-- Membership of a column name (`col in df.columns`). -/
def DF.hasCol (df : DF) (c : String) : Bool :=
  (df.colIdx c).isSome

/-- Number of rows (`len(df)`). -/
def DF.nrows (df : DF) : Nat := df.rows.length

/-- Emptiness test (`df.empty`): no rows or no columns. -/
def DF.isEmptyB (df : DF) : Bool := df.rows.isEmpty || df.header.isEmpty

/-- The sequence of cells of column `i` (`df[col]`). -/
def colCells (df : DF) (i : Nat) : List Cell :=
  df.rows.map (fun r => r.getD i Cell.missing)

/-- The present (non-missing) numeric values of a column
(`df[col].dropna()` on a numeric column). -/
def presentNums (cells : List Cell) : List ℚ :=
  cells.filterMap (fun c => match c with | .num v => some v | _ => none)

/-- Number of missing cells (`df[col].isnull().sum()`). -/
def countMissing (cells : List Cell) : Nat :=
  cells.countP (fun c => decide (c = Cell.missing))

/-- Number of non-missing cells (`df[col].notna().sum()`). -/
def notnaCount (cells : List Cell) : Nat :=
  cells.countP (fun c => decide (c ≠ Cell.missing))

/-- Key tuple of a row under the given column indices
(the row restricted to `subset`). -/
def keyAt (idxs : List Nat) (r : List Cell) : List Cell :=
  idxs.map (fun i => r.getD i Cell.missing)

/-- Rounding half to even on rationals, the tie-breaking used by Python's
`round` (for the exact values arising in this development the binary-float
artefacts of the source are immaterial). -/
def roundHalfEven (x : ℚ) : ℤ :=
  let f := ⌊x⌋
  let r := x - f
  if r < 1/2 then f
  else if 1/2 < r then f + 1
  else if f % 2 = 0 then f else f + 1

/-- Python `round(x, d)`. -/
def roundTo (d : Nat) (x : ℚ) : ℚ :=
  (roundHalfEven (x * 10 ^ d) : ℚ) / 10 ^ d

/-! ## Quality analyzer (`pipeline/quality.py`) -/

/-- `QualityAnalyzer.calculate_completeness`: fraction of non-missing cells,
0 for an empty frame. -/
def calculate_completeness (df : DF) : ℚ :=
  if df.isEmptyB then 0
  else
    let totalCells := df.rows.foldl (fun (a : Nat) r => a + r.length) 0
    let nonNull := df.rows.foldl (fun (a : Nat) r => a + notnaCount r) 0
    (nonNull : ℚ) / (totalCells : ℚ)

/-- The automatic id-column choice of `QualityAnalyzer.count_duplicates`:
every column of the preferred list that is present, else the first column. -/
def qualityIdCols (df : DF) : List String :=
  let ids := ["code", "id", "product_id", "siret", "uuid"].filter
    (fun c => df.hasCol c)
  if ids.isEmpty then [(df.header.headD ("", ColType.object)).1] else ids

/-- Row `i` repeats an earlier row under the key (`df.duplicated(subset)`,
default `keep=first`). -/
def dupFlag (df : DF) (idxs : List Nat) (i : Nat) : Bool :=
  (List.range i).any (fun j =>
    decide (keyAt idxs (df.rows.getD j []) = keyAt idxs (df.rows.getD i [])))

/-- `QualityAnalyzer.count_duplicates` with automatic key selection:
count and percentage of rows that duplicate an earlier row. -/
def count_duplicates (df : DF) : Nat × ℚ :=
  if df.isEmptyB then (0, 0)
  else
    let idxs := (qualityIdCols df).filterMap df.colIdx
    let dup := ((List.range df.nrows).filter (dupFlag df idxs)).length
    (dup, (dup : ℚ) / (df.nrows : ℚ) * 100)

/-- `QualityAnalyzer.calculate_geocoding_stats`: success rate (percentage of
rows whose geocoding score is present and at least 0.5) and the mean score
over that valid subset. -/
def calculate_geocoding_stats (df : DF) : ℚ × ℚ :=
  if df.isEmptyB || !df.hasCol "geocoding_score" then (0, 0)
  else
    match df.colIdx "geocoding_score" with
    | none => (0, 0)
    | some i =>
      let valid := (colCells df i).filterMap (fun c =>
        match c with
        | .num v => if (1/2 : ℚ) ≤ v then some v else none
        | _ => none)
      let rate := (valid.length : ℚ) / (df.nrows : ℚ) * 100
      let avg := if valid.length = 0 then 0 else valid.sum / (valid.length : ℚ)
      (rate, avg)

/-- `QualityAnalyzer.calculate_null_counts`: per column, the missing-cell
count and its rounded percentage; empty for an empty frame. -/
def calculate_null_counts (df : DF) : List (String × Nat × ℚ) :=
  if df.isEmptyB then []
  else
    (List.range df.header.length).map (fun i =>
      let cnt := countMissing (colCells df i)
      ((df.header.getD i ("", ColType.object)).1, cnt,
        roundTo 2 ((cnt : ℚ) / (df.nrows : ℚ) * 100)))

/-- `QualityAnalyzer.determine_quality_grade`.  `hasGeo` models the test
`geocoding_score in self.df.columns` made inside the method. -/
def determine_quality_grade (hasGeo : Bool)
    (completeness duplicatesPct geoRate : ℚ) : String :=
  let s1 : ℚ := 0 + min (completeness * 40) 40
  let s2 := s1 +
    (if duplicatesPct ≤ 1 then 30
     else if duplicatesPct ≤ 5 then 20
     else if duplicatesPct ≤ 10 then 10 else 0)
  let s3 := s2 + (if hasGeo then min (geoRate / 100 * 30) 30 else 30)
  if 90 ≤ s3 then "A"
  else if 75 ≤ s3 then "B"
  else if 60 ≤ s3 then "C"
  else if 40 ≤ s3 then "D"
  else "F"

/-- The quality snapshot assembled by `QualityAnalyzer.analyze`. -/
structure QualityMetrics where
  total_records : Nat
  valid_records : ℤ
  completeness_score : ℚ
  duplicates_count : Nat
  duplicates_pct : ℚ
  geocoding_success_rate : ℚ
  avg_geocoding_score : ℚ
  null_counts : List (String × Nat × ℚ)
  quality_grade : String
deriving DecidableEq

/-- `QualityAnalyzer.analyze`: computes all metrics and the grade; the grade
is computed from the unrounded metric values, as in the source. -/
def analyze (df : DF) : QualityMetrics :=
  let completeness := calculate_completeness df
  let dup := count_duplicates df
  let geo := calculate_geocoding_stats df
  { total_records := df.nrows
    valid_records := (df.nrows : ℤ) - (dup.1 : ℤ)
    completeness_score := roundTo 3 completeness
    duplicates_count := dup.1
    duplicates_pct := roundTo 2 dup.2
    geocoding_success_rate := roundTo 2 geo.1
    avg_geocoding_score := roundTo 3 geo.2
    null_counts := calculate_null_counts df
    quality_grade :=
      determine_quality_grade (df.hasCol "geocoding_score") completeness
        dup.2 geo.1 }

/-! Specification-side restatement of the grading rule, for claim C1:
the score written as one weighted sum with clamped sub-scores, and the
letter thresholds applied to it. -/

/-- Quality score exactly as the specification words it: clamped
completeness points plus the duplicate tier plus the geocoding points. -/
def specQualityScore (hasGeo : Bool) (c d g : ℚ) : ℚ :=
  min (c * 40) 40 +
    (if d ≤ 1 then 30 else if d ≤ 5 then 20 else if d ≤ 10 then 10 else 0) +
    (if hasGeo then min (g / 100 * 30) 30 else 30)

/-- Letter thresholds of the specification on the 0-100 total. -/
def specLetter (s : ℚ) : String :=
  if 90 ≤ s then "A"
  else if 75 ≤ s then "B"
  else if 60 ≤ s then "C"
  else if 40 ≤ s then "D"
  else "F"

/-- Claim C1: the quality grade is the deterministic function of
completeness, duplicate percentage, geocoding rate and geocoding-column
presence described by the specification; in particular, without a geocoding
column the inputs (0.5, 7.0, 0) grade C, and with one the inputs
(1.0, 0.0, 100.0) grade A. -/
theorem c1_quality_grade :
    (∀ (hasGeo : Bool) (c d g : ℚ),
      determine_quality_grade hasGeo c d g = specLetter (specQualityScore hasGeo c d g)) ∧
    determine_quality_grade false (1/2) 7 0 = "C" ∧
    determine_quality_grade true 1 0 100 = "A" := by
  refine ⟨fun hasGeo c d g => ?_,
    by simp only [determine_quality_grade]; norm_num [min_def],
    by simp only [determine_quality_grade]; norm_num [min_def]⟩
  simp only [determine_quality_grade, specLetter, specQualityScore, zero_add]

/-- Claim C6: on an empty Tabular Container (zero rows or zero columns)
`analyze` is total and returns the neutral values: completeness 0,
duplicate count 0 with percentage 0, geocoding rate and average 0, an empty
null-count mapping, and the grade computed from the remaining partial
score. -/
theorem c6_analyze_empty (df : DF) (h : df.isEmptyB = true) :
    (analyze df).completeness_score = 0 ∧
    (analyze df).duplicates_count = 0 ∧
    (analyze df).duplicates_pct = 0 ∧
    (analyze df).geocoding_success_rate = 0 ∧
    (analyze df).avg_geocoding_score = 0 ∧
    (analyze df).null_counts = [] ∧
    (analyze df).quality_grade =
      determine_quality_grade (df.hasCol "geocoding_score") 0 0 0 := by
  simp [analyze, calculate_completeness, count_duplicates,
    calculate_geocoding_stats, calculate_null_counts, h, roundTo,
    roundHalfEven]

/-- Witness for C6 at the fully empty container. -/
theorem c6_analyze_empty_witness :
    (DF.isEmptyB ⟨[], []⟩ = true) ∧
    ((analyze ⟨[], []⟩).completeness_score = 0 ∧
     (analyze ⟨[], []⟩).duplicates_count = 0 ∧
     (analyze ⟨[], []⟩).duplicates_pct = 0 ∧
     (analyze ⟨[], []⟩).geocoding_success_rate = 0 ∧
     (analyze ⟨[], []⟩).avg_geocoding_score = 0 ∧
     (analyze ⟨[], []⟩).null_counts = [] ∧
     (analyze ⟨[], []⟩).quality_grade =
       determine_quality_grade (DF.hasCol ⟨[], []⟩ "geocoding_score") 0 0 0) :=
  ⟨by decide, c6_analyze_empty ⟨[], []⟩ (by decide)⟩

/-! ## Transformer aliasing model (claim C9)

The source's `DataTransformer.__init__` stores `df.copy()`, every chained
operation rebinds or mutates only `self.df`, and `get_result` returns
`self.df.copy()`.  To state the aliasing claim we model the Python heap as a
list of DataFrames addressed by position; the transformer holds one cell of
that heap and each operation rewrites only that cell. -/

/-- Default heap value for out-of-range lookups. -/
def emptyDF : DF := ⟨[], []⟩

/-- Heap lookup. -/
def hget (h : List DF) (r : Nat) : DF := h.getD r emptyDF

/-- Allocation of a fresh object holding `d`; returns the new heap and the
new reference. -/
def halloc (h : List DF) (d : DF) : List DF × Nat := (h ++ [d], h.length)

/-- `DataTransformer.__init__`: allocates an independent copy of the input
frame (`self.df = df.copy()`) and returns the transformer's own cell. -/
def transformer_init (h : List DF) (src : Nat) : List DF × Nat :=
  halloc h (hget h src)

/-- A chained operation: every transformer method rewrites only the
transformer's own frame (`self.df = f(self.df)` or in-place column
assignment on the object `self.df` points to). -/
def transformer_apply (h : List DF) (t : Nat) (f : DF → DF) : List DF :=
  h.set t (f (hget h t))

/-- `DataTransformer.get_result`: allocates and returns an independent copy
of the current state (`return self.df.copy()`). -/
def transformer_get_result (h : List DF) (t : Nat) : List DF × Nat :=
  halloc h (hget h t)

theorem hget_append_left (h : List DF) (d : DF) (r : Nat) (hr : r < h.length) :
    hget (h ++ [d]) r = hget h r := by
  simp [hget, List.getD, List.getElem?_append_left hr]

theorem hget_set_ne (h : List DF) (t : Nat) (d : DF) (r : Nat) (hne : r ≠ t) :
    hget (h.set t d) r = hget h r := by
  simp [hget, List.getD, List.getElem?_set_ne (Ne.symm hne)]

/-- Claim C9: the container passed to the constructor is never mutated by
the chain, a copy returned by `get_result` is not changed by later chained
operations, and overwriting a returned copy does not change the chain's
internal state. -/
theorem c9_no_mutation (h : List DF) (src : Nat) (hsrc : src < h.length)
    (f g : DF → DF) (d : DF) :
    -- the constructor copies: the input object is untouched and distinct
    (hget (transformer_init h src).1 src = hget h src ∧
      (transformer_init h src).2 ≠ src) ∧
    -- chained operations never touch the input object
    (hget (transformer_apply (transformer_init h src).1
        (transformer_init h src).2 f) src = hget h src) ∧
    -- later operations do not change a previously returned copy
    (let h1 := transformer_apply (transformer_init h src).1
        (transformer_init h src).2 f
     let res := transformer_get_result h1 (transformer_init h src).2
     hget (transformer_apply res.1 (transformer_init h src).2 g) res.2 =
       hget res.1 res.2) ∧
    -- overwriting a returned copy does not change the chain's state
    (let h1 := transformer_apply (transformer_init h src).1
        (transformer_init h src).2 f
     let res := transformer_get_result h1 (transformer_init h src).2
     hget (res.1.set res.2 d) (transformer_init h src).2 =
       hget res.1 (transformer_init h src).2) := by
  have hne : src ≠ (transformer_init h src).2 := Nat.ne_of_lt hsrc
  have l2 : (transformer_apply (transformer_init h src).1
      (transformer_init h src).2 f).length = h.length + 1 := by
    simp [transformer_apply, transformer_init, halloc]
  refine ⟨⟨hget_append_left h _ src hsrc, fun e => hne e.symm⟩, ?_, ?_, ?_⟩
  · unfold transformer_apply
    rw [hget_set_ne _ _ _ src hne]
    exact hget_append_left h _ src hsrc
  · intro h1 res
    have hres : res.2 ≠ (transformer_init h src).2 := by
      show (transformer_apply (transformer_init h src).1
          (transformer_init h src).2 f).length ≠ (transformer_init h src).2
      rw [l2]
      exact Nat.succ_ne_self h.length
    unfold transformer_apply
    exact hget_set_ne _ _ _ _ hres
  · intro h1 res
    have htres : (transformer_init h src).2 ≠ res.2 := by
      show (transformer_init h src).2 ≠
        (transformer_apply (transformer_init h src).1
          (transformer_init h src).2 f).length
      rw [l2]
      exact (Nat.succ_ne_self h.length).symm
    exact hget_set_ne _ _ _ _ htres

/-- Witness for C9 on a one-object heap. -/
theorem c9_no_mutation_witness :
    (0 < [emptyDF].length) ∧
    ((hget (transformer_init [emptyDF] 0).1 0 = hget [emptyDF] 0 ∧
       (transformer_init [emptyDF] 0).2 ≠ 0) ∧
     (hget (transformer_apply (transformer_init [emptyDF] 0).1
         (transformer_init [emptyDF] 0).2 id) 0 = hget [emptyDF] 0) ∧
     (let h1 := transformer_apply (transformer_init [emptyDF] 0).1
         (transformer_init [emptyDF] 0).2 id
      let res := transformer_get_result h1 (transformer_init [emptyDF] 0).2
      hget (transformer_apply res.1 (transformer_init [emptyDF] 0).2 id)
          res.2 = hget res.1 res.2) ∧
     (let h1 := transformer_apply (transformer_init [emptyDF] 0).1
         (transformer_init [emptyDF] 0).2 id
      let res := transformer_get_result h1 (transformer_init [emptyDF] 0).2
      hget (res.1.set res.2 emptyDF) (transformer_init [emptyDF] 0).2 =
        hget res.1 (transformer_init [emptyDF] 0).2)) :=
  ⟨by decide, c9_no_mutation [emptyDF] 0 (by decide) id id emptyDF⟩

/-! ## Enrichment cache (`pipeline/enricher.py`), claim C10 -/

/-- Python `str.strip()` on a character list: drop leading and trailing
whitespace. -/
def trimChars (l : List Char) : List Char :=
  ((l.dropWhile Char.isWhitespace).reverse.dropWhile Char.isWhitespace).reverse

/-- Python `str.strip()`. -/
def pyStrip (s : String) : String := String.mk (trimChars s.toList)

/-- Python `addr.split(",")`: split on every comma, keeping empty parts. -/
def splitCommaAux (cur : List Char) : List Char → List (List Char)
  | [] => [cur.reverse]
  | c :: rest =>
    if c = ',' then cur.reverse :: splitCommaAux [] rest
    else splitCommaAux (c :: cur) rest

/-- The trimmed comma-separated parts of an address string
(`part.strip() for part in addr.split(",")`). -/
def partsOf (a : String) : List String :=
  (splitCommaAux [] a.toList).map (fun p => String.mk (trimChars p))

/-- Adding one cleaned part to the address set (`addresses.add(cleaned)`
guarded by `len(cleaned) > 3`); the Python set is modelled as a
duplicate-free list. -/
def insertAddr (acc : List String) (p : String) : List String :=
  if 3 < p.length ∧ p ∉ acc then acc ++ [p] else acc

/-- One record step of `DataEnricher.extract_addresses`: skip a missing or
non-string field and skip a blank field, else insert every cleaned part. -/
def extractStep (acc : List String) (o : Option String) : List String :=
  match o with
  | none => acc
  | some a => if pyStrip a = "" then acc else (partsOf a).foldl insertAddr acc

/-- `DataEnricher.extract_addresses`: a record is represented by the value
of its address-bearing field, `none` standing for a missing or non-string
value. -/
def extract_addresses (products : List (Option String)) : List String :=
  products.foldl extractStep []

theorem mem_insertAddr {acc : List String} {p s : String} :
    s ∈ insertAddr acc p ↔ s ∈ acc ∨ (3 < p.length ∧ s = p) := by
  unfold insertAddr
  split
  next h =>
    simp only [List.mem_append, List.mem_singleton]
    constructor
    · rintro (hs | rfl)
      · exact Or.inl hs
      · exact Or.inr ⟨h.1, rfl⟩
    · rintro (hs | ⟨-, rfl⟩)
      · exact Or.inl hs
      · exact Or.inr rfl
  next h =>
    push_neg at h
    constructor
    · exact Or.inl
    · rintro (hs | ⟨hlen, rfl⟩)
      · exact hs
      · exact h hlen

theorem mem_foldl_insertAddr (l : List String) (acc : List String) (s : String) :
    s ∈ l.foldl insertAddr acc ↔ s ∈ acc ∨ (3 < s.length ∧ s ∈ l) := by
  induction l generalizing acc with
  | nil => simp
  | cons p t ih =>
    rw [List.foldl_cons, ih, mem_insertAddr]
    constructor
    · rintro ((hs | ⟨hlen, rfl⟩) | ⟨hlen, ht⟩)
      · exact Or.inl hs
      · exact Or.inr ⟨hlen, List.mem_cons_self _ _⟩
      · exact Or.inr ⟨hlen, List.mem_cons_of_mem _ ht⟩
    · rintro (hs | ⟨hlen, hm⟩)
      · exact Or.inl (Or.inl hs)
      · rcases List.mem_cons.mp hm with rfl | ht
        · exact Or.inl (Or.inr ⟨hlen, rfl⟩)
        · exact Or.inr ⟨hlen, ht⟩

theorem nodup_insertAddr {acc : List String} {p : String} (h : acc.Nodup) :
    (insertAddr acc p).Nodup := by
  unfold insertAddr
  split
  next hc =>
    exact h.append (List.nodup_singleton p)
      (fun a ha hb => hc.2 (by rwa [List.mem_singleton.mp hb] at ha))
  next hc => exact h

theorem nodup_foldl_insertAddr (l : List String) (acc : List String)
    (h : acc.Nodup) : (l.foldl insertAddr acc).Nodup := by
  induction l generalizing acc with
  | nil => exact h
  | cons p t ih => exact ih _ (nodup_insertAddr h)

theorem mem_dropWhile_of_not {α} (p : α → Bool) {x : α} :
    ∀ {l : List α}, x ∈ l → p x = false → x ∈ l.dropWhile p := by
  intro l
  induction l with
  | nil => intro h _; exact absurd h (List.not_mem_nil x)
  | cons y ys ih =>
    intro hx hpx
    rw [List.dropWhile_cons]
    cases hy : p y with
    | true =>
      rcases List.mem_cons.mp hx with rfl | hmem
      · rw [hpx] at hy
        exact absurd hy (by simp)
      · simpa using ih hmem hpx
    | false =>
      simpa using hx

theorem trimChars_eq_nil_iff (l : List Char) :
    trimChars l = [] ↔ ∀ c ∈ l, c.isWhitespace := by
  constructor
  · intro h c hc
    by_contra hw
    have hw' : c.isWhitespace = false := by
      cases hcw : c.isWhitespace
      · rfl
      · exact absurd hcw hw
    have h1 : c ∈ l.dropWhile Char.isWhitespace :=
      mem_dropWhile_of_not _ hc hw'
    have h2 : c ∈ (l.dropWhile Char.isWhitespace).reverse :=
      List.mem_reverse.mpr h1
    have h3 : c ∈ trimChars l :=
      List.mem_reverse.mpr (mem_dropWhile_of_not _ h2 hw')
    rw [h] at h3
    exact absurd h3 (List.not_mem_nil c)
  · intro h
    have h1 : l.dropWhile Char.isWhitespace = [] :=
      List.dropWhile_eq_nil_iff.mpr h
    simp [trimChars, h1]

theorem splitCommaAux_chars :
    ∀ (l cur : List Char) (p : List Char), p ∈ splitCommaAux cur l →
      ∀ c ∈ p, c ∈ cur ∨ c ∈ l := by
  intro l
  induction l with
  | nil =>
    intro cur p hp c hc
    rw [splitCommaAux] at hp
    rcases List.mem_singleton.mp hp with rfl
    exact Or.inl (List.mem_reverse.mp hc)
  | cons x rest ih =>
    intro cur p hp c hc
    rw [splitCommaAux] at hp
    split at hp
    next hx =>
      rcases List.mem_cons.mp hp with rfl | hp2
      · exact Or.inl (List.mem_reverse.mp hc)
      · rcases ih [] p hp2 c hc with h | h
        · exact absurd h (List.not_mem_nil c)
        · exact Or.inr (List.mem_cons_of_mem _ h)
    next hx =>
      rcases ih (x :: cur) p hp c hc with h | h
      · rcases List.mem_cons.mp h with rfl | h2
        · exact Or.inr (List.mem_cons_self _ _)
        · exact Or.inl h2
      · exact Or.inr (List.mem_cons_of_mem _ h)

/-- A blank address field contributes no part of length more than 3:
its parts all trim to the empty string. -/
theorem short_of_strip_empty {a s : String} (hg : pyStrip a = "")
    (hs : s ∈ partsOf a) : ¬ 3 < s.length := by
  have hws : ∀ c ∈ a.toList, c.isWhitespace := by
    have : trimChars a.toList = [] := by
      have := congrArg String.data hg
      simpa [pyStrip] using this
    exact (trimChars_eq_nil_iff _).mp this
  rcases List.mem_map.mp hs with ⟨p, hp, rfl⟩
  have hpw : ∀ c ∈ p, c.isWhitespace := by
    intro c hc
    rcases splitCommaAux_chars a.toList [] p hp c hc with h | h
    · exact absurd h (List.not_mem_nil c)
    · exact hws c h
  have : trimChars p = [] := (trimChars_eq_nil_iff _).mpr hpw
  rw [this]
  decide

theorem extract_aux_mem (ps : List (Option String)) (acc : List String)
    (s : String) :
    s ∈ ps.foldl extractStep acc ↔
      s ∈ acc ∨ (3 < s.length ∧ ∃ a, some a ∈ ps ∧ s ∈ partsOf a) := by
  induction ps generalizing acc with
  | nil => simp
  | cons o t ih =>
    rw [List.foldl_cons, ih]
    cases o with
    | none =>
      simp only [extractStep]
      constructor
      · rintro (hs | ⟨hlen, a, ha, hsa⟩)
        · exact Or.inl hs
        · exact Or.inr ⟨hlen, a, List.mem_cons_of_mem _ ha, hsa⟩
      · rintro (hs | ⟨hlen, a, ha, hsa⟩)
        · exact Or.inl hs
        · rcases List.mem_cons.mp ha with h | h
          · exact absurd h (by simp)
          · exact Or.inr ⟨hlen, a, h, hsa⟩
    | some a0 =>
      by_cases hg : pyStrip a0 = ""
      · simp only [extractStep, if_pos hg]
        constructor
        · rintro (hs | ⟨hlen, a, ha, hsa⟩)
          · exact Or.inl hs
          · exact Or.inr ⟨hlen, a, List.mem_cons_of_mem _ ha, hsa⟩
        · rintro (hs | ⟨hlen, a, ha, hsa⟩)
          · exact Or.inl hs
          · rcases List.mem_cons.mp ha with h | h
            · rw [show a = a0 from Option.some_injective _ h] at hsa
              exact absurd hlen (short_of_strip_empty hg hsa)
            · exact Or.inr ⟨hlen, a, h, hsa⟩
      · simp only [extractStep, if_neg hg]
        rw [mem_foldl_insertAddr]
        constructor
        · rintro ((hs | ⟨hlen, hsa⟩) | ⟨hlen, a, ha, hsa⟩)
          · exact Or.inl hs
          · exact Or.inr ⟨hlen, a0, List.mem_cons_self _ _, hsa⟩
          · exact Or.inr ⟨hlen, a, List.mem_cons_of_mem _ ha, hsa⟩
        · rintro (hs | ⟨hlen, a, ha, hsa⟩)
          · exact Or.inl (Or.inl hs)
          · rcases List.mem_cons.mp ha with h | h
            · rw [show a = a0 from Option.some_injective _ h] at hsa
              exact Or.inl (Or.inr ⟨hlen, hsa⟩)
            · exact Or.inr ⟨hlen, a, h, hsa⟩

/-- Claim C10: `extract_addresses` returns exactly the duplicate-free,
case-sensitive collection of the trimmed comma-separated parts of length at
least 4 of the records' address fields; on the four sample records it
yields exactly the three distinct strings of the specification. -/
theorem c10_extract_addresses :
    (∀ (ps : List (Option String)) (s : String),
      s ∈ extract_addresses ps ↔
        3 < s.length ∧ ∃ a, some a ∈ ps ∧ s ∈ partsOf a) ∧
    (∀ ps : List (Option String), (extract_addresses ps).Nodup) ∧
    extract_addresses [some "Carrefour Paris, Auchan", some "Leclerc Toulouse",
        none, some "Carrefour Paris"] =
      ["Carrefour Paris", "Auchan", "Leclerc Toulouse"] := by
  refine ⟨fun ps s => ?_, fun ps => ?_, by decide⟩
  · rw [extract_addresses, extract_aux_mem]
    simp
  · have : ∀ (ps : List (Option String)) (acc : List String), acc.Nodup →
        (ps.foldl extractStep acc).Nodup := by
      intro ps
      induction ps with
      | nil => intro acc h; exact h
      | cons o t ih =>
        intro acc h
        rw [List.foldl_cons]
        refine ih _ ?_
        cases o with
        | none => exact h
        | some a =>
          by_cases hg : pyStrip a = ""
          · simpa [extractStep, hg] using h
          · simp only [extractStep, if_neg hg]
            exact nodup_foldl_insertAddr _ _ h
    exact this ps [] List.nodup_nil

/-! ## Transformer (`pipeline/transformer.py`) -/

/-- The default deduplication key of `DataTransformer.remove_duplicates`:
the column `code` if present, else the first column. -/
def transformerDefaultSubset (df : DF) : List String :=
  if df.hasCol "code" then ["code"]
  else [(df.header.headD ("", ColType.object)).1]

/-- Keep-first deduplication under a key
(`drop_duplicates(subset=..., keep=first)`). -/
def dedupByKeyAux (key : List Cell → List Cell) (seen : List (List Cell)) :
    List (List Cell) → List (List Cell)
  | [] => []
  | r :: rs =>
    if key r ∈ seen then dedupByKeyAux key seen rs
    else r :: dedupByKeyAux key (key r :: seen) rs

/-- `DataTransformer.remove_duplicates`: drops later rows sharing the key,
logging the count removed when positive. -/
def remove_duplicates (subset : Option (List String)) (df : DF) :
    DF × List String :=
  let names := subset.getD (transformerDefaultSubset df)
  let idxs := names.filterMap df.colIdx
  let rows := dedupByKeyAux (keyAt idxs) [] df.rows
  let removed := df.rows.length - rows.length
  ({ df with rows := rows },
    if 0 < removed then ["Doublons supprimés: " ++ toString removed] else [])

/-- The accent folding performed by
`str.normalize(NFKD).str.encode(ascii, ignore).str.decode(ascii)`,
restricted to a representative character table: ASCII characters are kept,
common accented letters decompose to their base letter, and every other
character is dropped (no ASCII-compatible decomposition). -/
def asciiFoldChar (c : Char) : List Char :=
  if c.toNat < 128 then [c]
  else if c ∈ ['é', 'è', 'ê', 'ë'] then ['e']
  else if c ∈ ['à', 'â', 'ä'] then ['a']
  else if c = 'ç' then ['c']
  else if c ∈ ['î', 'ï'] then ['i']
  else if c ∈ ['ô', 'ö'] then ['o']
  else if c ∈ ['ù', 'û', 'ü'] then ['u']
  else if c ∈ ['É', 'È', 'Ê', 'Ë'] then ['E']
  else if c ∈ ['À', 'Â', 'Ä'] then ['A']
  else if c = 'Ç' then ['C']
  else []

/-- NFKD accent folding of a string to ASCII. -/
def asciiFold (s : String) : String :=
  String.mk (s.toList.map asciiFoldChar).flatten

/-- Python `str.lower()`. -/
def pyLower (s : String) : String := String.mk (s.toList.map Char.toLower)

/-- The string transform of `normalize_text_columns`: strip, fold accents
to ASCII, lowercase (applied after `astype(str)`). -/
def normString (s : String) : String := pyLower (asciiFold (pyStrip s))

/-- Python `str(x)` on a cell (`astype(str)`): NaN prints as the literal
string `nan`; integer-valued floats print with a trailing `.0`. -/
def cellToStr : Cell → String
  | .missing => "nan"
  | .str s => s
  | .num v => if v.den = 1 then toString v.num ++ ".0" else toString v

/-- The per-cell transform of `normalize_text_columns`: every cell becomes
a (non-missing) string. -/
def normCell (c : Cell) : Cell := .str (normString (cellToStr c))

/-- Column indices of object dtype (`select_dtypes(include=[object])`);
the container invariant of unique column names lets the source's
name-based iteration be modelled by index. -/
def objectIdxs (df : DF) : List Nat :=
  (List.range df.header.length).filter
    (fun i => decide ((df.header.getD i ("", ColType.numeric)).2 = ColType.object))

/-- Column indices of numeric dtype (`select_dtypes(include=[np.number])`). -/
def numericIdxs (df : DF) : List Nat :=
  (List.range df.header.length).filter
    (fun i => decide ((df.header.getD i ("", ColType.object)).2 = ColType.numeric))

/-- Column indices processed by `normalize_text_columns`: the given columns
that are present, else all object columns. -/
def effIdxs (df : DF) (cols : Option (List String)) : List Nat :=
  match cols with
  | none => objectIdxs df
  | some ns => ns.filterMap df.colIdx

/-- `DataTransformer.normalize_text_columns`: strip, NFKD accent folding to
ASCII and lowercasing of every chosen text column; the log entry with the
column count is appended unconditionally, exactly as in the source. -/
def normalize_text_columns (cols : Option (List String)) (df : DF) :
    DF × List String :=
  let idxs := effIdxs df cols
  let k := match cols with
    | none => (objectIdxs df).length
    | some ns => ns.length
  ({ df with rows := df.rows.map (fun r =>
      idxs.foldl (fun r i => r.set i (normCell (r.getD i Cell.missing))) r) },
   ["Normalisation texte: " ++ toString k ++ " colonnes"])

/-- The `numeric_strategy` parameter of `handle_missing_values`; `skip`
models any value other than median/mean/zero (Python fills with `None`,
meaning no fill). -/
inductive NumStrategy
  | median
  | mean
  | zero
  | skip
deriving DecidableEq

/-- Insertion into a sorted list of rationals. -/
def insertSorted (x : ℚ) : List ℚ → List ℚ
  | [] => [x]
  | y :: ys => if x ≤ y then x :: y :: ys else y :: insertSorted x ys

/-- Ascending insertion sort. -/
def sortQ (xs : List ℚ) : List ℚ := xs.foldr insertSorted []

/-- pandas `Series.quantile(q)` with the default linear interpolation over
the present values; `none` when there is no present value (NaN). -/
def quantileLin (xs : List ℚ) (q : ℚ) : Option ℚ :=
  match sortQ xs with
  | [] => none
  | s =>
    let n := s.length
    let h : ℚ := ((n : ℚ) - 1) * q
    let i : Nat := (⌊h⌋).toNat
    let lo := s.getD i 0
    let hi := s.getD (i + 1) lo
    some (lo + (h - (⌊h⌋ : ℚ)) * (hi - lo))

/-- pandas `Series.median()` over present values (NaN when none). -/
def medianQ (xs : List ℚ) : Option ℚ := quantileLin xs (1/2)

/-- pandas `Series.mean()` over present values (NaN when none). -/
def meanQ (xs : List ℚ) : Option ℚ :=
  if xs.length = 0 then none else some (xs.sum / (xs.length : ℚ))

/-- The fill value of `handle_missing_values` for one numeric column:
`none` models Python `None` (the strategy performs no fill at all),
`some none` models a NaN fill value (median/mean of an all-missing column,
a no-op fill that is still logged). -/
def numericFillValue : NumStrategy → List ℚ → Option (Option ℚ)
  | .median, xs => some (medianQ xs)
  | .mean, xs => some (meanQ xs)
  | .zero, _ => some (some 0)
  | .skip, _ => none

/-- `fillna(v)` at cell level for a numeric fill; filling with NaN leaves
missing cells missing. -/
def fillCell (v : Option ℚ) : Cell → Cell
  | .missing => match v with | some x => .num x | none => .missing
  | .num w => .num w
  | .str s => .str s

/-- `fillna(text)` at cell level for a text fill. -/
def fillTextCell (t : String) : Cell → Cell
  | .missing => .str t
  | c => c

/-- Python `{:.2f}` rendering used by the impute log (NaN prints `nan`). -/
def fmt2 (v : Option ℚ) : String :=
  match v with
  | none => "nan"
  | some x =>
    let c := roundHalfEven (x * 100)
    let a := c.natAbs
    (if c < 0 then "-" else "") ++ toString (a / 100) ++ "." ++
      (if a % 100 < 10 then "0" else "") ++ toString (a % 100)

/-- One numeric column of `handle_missing_values`. -/
def imputeNumIdx (strat : NumStrategy) (df : DF) (i : Nat) : DF × List String :=
  let cells := colCells df i
  let n := countMissing cells
  if n = 0 then (df, [])
  else
    match numericFillValue strat (presentNums cells) with
    | none => (df, [])
    | some fv =>
      ({ df with rows := df.rows.map (fun r =>
          r.set i (fillCell fv (r.getD i Cell.missing))) },
       [(df.header.getD i ("", ColType.numeric)).1 ++ ": " ++ toString n ++
         " nulls → " ++ fmt2 fv])

/-- One text column of `handle_missing_values`. -/
def imputeTextIdx (tfill : String) (df : DF) (i : Nat) : DF × List String :=
  let n := countMissing (colCells df i)
  if n = 0 then (df, [])
  else
    ({ df with rows := df.rows.map (fun r =>
        r.set i (fillTextCell tfill (r.getD i Cell.missing))) },
     [(df.header.getD i ("", ColType.object)).1 ++ ": " ++ toString n ++
       " nulls → " ++ "\x27" ++ tfill ++ "\x27"])

/-- Sequential column processing, threading the frame and concatenating the
log entries. -/
def foldSteps (f : DF → Nat → DF × List String) (df : DF) (idxs : List Nat) :
    DF × List String :=
  idxs.foldl (fun acc i =>
    let st := f acc.1 i
    (st.1, acc.2 ++ st.2)) (df, [])

/-- `DataTransformer.handle_missing_values`: numeric columns first, then
text columns. -/
def handle_missing_values (strat : NumStrategy) (tfill : String) (df : DF) :
    DF × List String :=
  let a := foldSteps (imputeNumIdx strat) df (numericIdxs df)
  let b := foldSteps (imputeTextIdx tfill) a.1 (objectIdxs a.1)
  (b.1, a.2 ++ b.2)

/-- The round trip of claim C3: Deduplicate, Impute (defaults: median,
text fill `unknown`), Normalize, returning the frame and the log entries
appended by the pass. -/
def pipelineOnce (df : DF) : DF × List String :=
  let a := remove_duplicates none df
  let b := handle_missing_values .median "unknown" a.1
  let c := normalize_text_columns none b.1
  (c.1, a.2 ++ b.2 ++ c.2)

/-- Python regex `\s+` collapsing: each whitespace run becomes one space. -/
def collapseWsAux : Bool → List Char → List Char
  | _, [] => []
  | prevWs, c :: rest =>
    if c.isWhitespace then
      if prevWs then collapseWsAux true rest
      else ' ' :: collapseWsAux true rest
    else c :: collapseWsAux false rest

/-- Collapse internal whitespace runs to single spaces. -/
def collapseWs (s : String) : String := String.mk (collapseWsAux false s.toList)

/-- The accented letters of the model's character table (kept by the
regex class `\w`). -/
def extraLetters : List Char :=
  ['é', 'è', 'ê', 'ë', 'à', 'â', 'ä', 'ç', 'î', 'ï', 'ô', 'ö', 'ù', 'û', 'ü',
   'É', 'È', 'Ê', 'Ë', 'À', 'Â', 'Ä', 'Ç']

/-- A `\w` word character: alphanumeric, underscore, or an accented letter
(Python's `\w` with the default Unicode semantics includes the
underscore). -/
def pyWordChar (c : Char) : Bool :=
  c.isAlphanum || c == '_' || decide (c ∈ extraLetters)

/-- Characters surviving the removal regex `[^\w\s,.-]`. -/
def keepAddrChar (c : Char) : Bool :=
  pyWordChar c || c.isWhitespace || c == ',' || c == '.' || c == '-'

/-- The string transform of `clean_address_column`: strip, collapse
whitespace runs, remove characters outside the kept class. -/
def cleanStr (s : String) : String :=
  String.mk ((collapseWs (pyStrip s)).toList.filter keepAddrChar)

/-- The per-cell transform of `clean_address_column`, including the
`min_length` invalidation. -/
def cleanAddrCell (minLen : Nat) (c : Cell) : Cell :=
  let s := cleanStr (cellToStr c)
  if minLen ≤ s.length then .str s else .missing

/-- `DataTransformer.clean_address_column`. -/
def clean_address_column (addrCol : String) (minLen : Nat) (df : DF) :
    DF × List String :=
  match df.colIdx addrCol with
  | none => (df, [])
  | some i =>
    let initial := notnaCount (colCells df i)
    let cleanedDf : DF := { df with rows := df.rows.map (fun r =>
        r.set i (cleanAddrCell minLen (r.getD i Cell.missing))) }
    let removed := initial - notnaCount (colCells cleanedDf i)
    (cleanedDf,
      if 0 < removed then
        ["Adresses nettoyées: " ++ toString removed ++ " invalidées (<" ++
          toString minLen ++ " chars)"]
      else [])

/-- The `method` parameter of `filter_outliers`. -/
inductive OutlierMethod
  | iqr
  | zscore
deriving DecidableEq

/-- pandas `Series.std()` squared: the sample variance with `ddof=1`
(`none` models the NaN standard deviation of fewer than two values). -/
def sampleVarQ (xs : List ℚ) : Option ℚ :=
  if xs.length ≤ 1 then none
  else
    let m := xs.sum / (xs.length : ℚ)
    some ((xs.map (fun x => (x - m) ^ 2)).sum / ((xs.length : ℚ) - 1))

/-- One column pass of `filter_outliers`.  For the z-score branch, with
`std > 0` the source's keep condition `|v - mean| / std < t` is equivalent
to `0 < t` together with `(v - mean)^2 < t^2 * var`, which avoids the
irrational square root. -/
def perColFilter (method : OutlierMethod) (t : ℚ) (df : DF) (c : String) : DF :=
  match df.colIdx c with
  | none => df
  | some i =>
    let xs := presentNums (colCells df i)
    match method with
    | .iqr =>
      if xs.length = 0 then df
      else
        match quantileLin xs (1/4), quantileLin xs (3/4) with
        | some q1, some q3 =>
          if 0 < q3 - q1 then
            let lo := q1 - t * (q3 - q1)
            let hi := q3 + t * (q3 - q1)
            { df with rows := df.rows.filter (fun r =>
                match r.getD i Cell.missing with
                | .num v => decide (lo ≤ v ∧ v ≤ hi)
                | _ => false) }
          else df
        | _, _ => df
    | .zscore =>
      if xs.length = 0 then df
      else
        let m := xs.sum / (xs.length : ℚ)
        match sampleVarQ xs with
        | none => df
        | some var =>
          if 0 < var then
            { df with rows := df.rows.filter (fun r =>
                match r.getD i Cell.missing with
                | .num v => decide (0 < t ∧ (v - m) ^ 2 < t ^ 2 * var)
                | _ => false) }
          else df

/-- The cumulative per-column filtering of `filter_outliers`. -/
def filterOutliersData (cols : List String) (method : OutlierMethod) (t : ℚ)
    (df : DF) : DF :=
  cols.foldl (perColFilter method t) df

/-- `DataTransformer.filter_outliers`: cumulative row filtering per column
plus one log entry when rows were removed. -/
def filter_outliers (cols : List String) (method : OutlierMethod) (t : ℚ)
    (df : DF) : DF × List String :=
  let d := filterOutliersData cols method t df
  let removed := df.nrows - d.nrows
  (d, if 0 < removed then
      ["Outliers filtrés (" ++
        (match method with | .iqr => "iqr" | .zscore => "zscore") ++ "): " ++
        toString removed]
    else [])

/-! ## Claim C2: duplicate-key policies of analyzer and transformer -/

/-- Counterexample to claim C2: on a container with columns `name`, `id`
the Quality Analyzer keys on `id` (an id-like column) while the Transformer
default keys on the first column `name`; the analyzer reports one duplicate
while the transformer removes no row. -/
theorem c2_counterexample :
    qualityIdCols ⟨[("name", ColType.object), ("id", ColType.object)],
        [[.str "x", .str "1"], [.str "y", .str "1"]]⟩ ≠
      transformerDefaultSubset ⟨[("name", ColType.object), ("id", ColType.object)],
        [[.str "x", .str "1"], [.str "y", .str "1"]]⟩ ∧
    (count_duplicates ⟨[("name", ColType.object), ("id", ColType.object)],
        [[.str "x", .str "1"], [.str "y", .str "1"]]⟩).1 = 1 ∧
    (remove_duplicates none ⟨[("name", ColType.object), ("id", ColType.object)],
        [[.str "x", .str "1"], [.str "y", .str "1"]]⟩).1 =
      ⟨[("name", ColType.object), ("id", ColType.object)],
        [[.str "x", .str "1"], [.str "y", .str "1"]]⟩ := by
  refine ⟨by decide, by decide, by decide⟩

/-- Claim C2 (amended): the two default key policies differ in general —
the analyzer keys on every present column of the preferred id-like list,
the transformer only on `code` or the first column — and they agree
exactly when the present id-like columns are `[code]` or none; duplicate
counting returns the count of rows repeating an earlier row under the
analyzer's key and that count as a percentage of the row count. -/
theorem c2_key_policy_amended :
    (∀ df : DF,
      (["code", "id", "product_id", "siret", "uuid"].filter
          (fun c => df.hasCol c) = ["code"] ∨
       ["code", "id", "product_id", "siret", "uuid"].filter
          (fun c => df.hasCol c) = []) →
      qualityIdCols df = transformerDefaultSubset df) ∧
    (∀ df : DF, df.isEmptyB = false →
      (count_duplicates df).1 =
        ((List.range df.nrows).filter (fun i =>
          decide (∃ j < i,
            keyAt ((qualityIdCols df).filterMap df.colIdx) (df.rows.getD j []) =
            keyAt ((qualityIdCols df).filterMap df.colIdx)
              (df.rows.getD i [])))).length ∧
      (count_duplicates df).2 =
        ((count_duplicates df).1 : ℚ) / (df.nrows : ℚ) * 100) := by
  constructor
  · intro df h
    rcases h with h | h
    · have hcode : df.hasCol "code" = true := by
        have : "code" ∈ ["code", "id", "product_id", "siret", "uuid"].filter
            (fun c => df.hasCol c) := by rw [h]; simp
        exact (List.mem_filter.mp this).2
      simp [qualityIdCols, transformerDefaultSubset, h, hcode]
    · have hcode : df.hasCol "code" = false := by
        cases hc : df.hasCol "code"
        · rfl
        · exfalso
          have : "code" ∈ ["code", "id", "product_id", "siret", "uuid"].filter
              (fun c => df.hasCol c) :=
            List.mem_filter.mpr ⟨by simp, hc⟩
          rw [h] at this
          exact absurd this (List.not_mem_nil _)
      simp [qualityIdCols, transformerDefaultSubset, h, hcode]
  · intro df hne
    have hfun : ∀ i, dupFlag df ((qualityIdCols df).filterMap df.colIdx) i =
        decide (∃ j < i,
          keyAt ((qualityIdCols df).filterMap df.colIdx) (df.rows.getD j []) =
          keyAt ((qualityIdCols df).filterMap df.colIdx) (df.rows.getD i [])) := by
      intro i
      rw [Bool.eq_iff_iff]
      simp [dupFlag, List.any_eq_true, List.mem_range]
    constructor
    · simp only [count_duplicates, hne, Bool.false_eq_true, if_false]
      rw [List.filter_congr (fun a _ => hfun a)]
    · simp only [count_duplicates, hne, Bool.false_eq_true, if_false]

/-- Witness for the amended C2 on a container whose only id-like column is
`code`. -/
theorem c2_key_policy_amended_witness :
    (qualityIdCols ⟨[("code", ColType.object)], [[.str "x"], [.str "x"]]⟩ =
      transformerDefaultSubset
        ⟨[("code", ColType.object)], [[.str "x"], [.str "x"]]⟩) ∧
    ((count_duplicates
        ⟨[("code", ColType.object)], [[.str "x"], [.str "x"]]⟩).1 =
      ((List.range (DF.nrows
          ⟨[("code", ColType.object)], [[.str "x"], [.str "x"]]⟩)).filter
        (fun i => decide (∃ j < i,
          keyAt ((qualityIdCols
              ⟨[("code", ColType.object)], [[.str "x"], [.str "x"]]⟩).filterMap
              (DF.colIdx ⟨[("code", ColType.object)], [[.str "x"], [.str "x"]]⟩))
            ((DF.rows ⟨[("code", ColType.object)], [[.str "x"], [.str "x"]]⟩).getD j []) =
          keyAt ((qualityIdCols
              ⟨[("code", ColType.object)], [[.str "x"], [.str "x"]]⟩).filterMap
              (DF.colIdx ⟨[("code", ColType.object)], [[.str "x"], [.str "x"]]⟩))
            ((DF.rows ⟨[("code", ColType.object)], [[.str "x"], [.str "x"]]⟩).getD i [])))).length) :=
  ⟨c2_key_policy_amended.1 _ (Or.inl (by decide)),
   (c2_key_policy_amended.2 _ (by decide)).1⟩

/-! ## Claims C7 and C8: outlier filtering -/

/-- Claim C7: on the specification's example the IQR rule removes only the
row with value 100; in general, with nonzero IQR it keeps exactly the rows
whose value lies inside `[Q1 - t*IQR, Q3 + t*IQR]` (removing all others);
it does nothing when IQR is zero; the z-score rule keeps exactly the rows
with `|v - mean|/std < t` (stated squared) and does nothing when the
standard deviation is zero; and filtering one column feeds cumulatively
into the next. -/
theorem c7_filter_outliers :
    (filterOutliersData ["v"] .iqr (3/2)
        ⟨[("v", ColType.numeric)],
          [[.num 40], [.num 35], [.num 50], [.num 40], [.num 100]]⟩ =
      ⟨[("v", ColType.numeric)],
        [[.num 40], [.num 35], [.num 50], [.num 40]]⟩) ∧
    (∀ (df : DF) (c : String) (t : ℚ) (i : Nat) (q1 q3 : ℚ),
      df.colIdx c = some i →
      quantileLin (presentNums (colCells df i)) (1/4) = some q1 →
      quantileLin (presentNums (colCells df i)) (3/4) = some q3 →
      0 < q3 - q1 →
      (perColFilter .iqr t df c).rows = df.rows.filter (fun r =>
        match r.getD i Cell.missing with
        | .num v => decide (q1 - t * (q3 - q1) ≤ v ∧ v ≤ q3 + t * (q3 - q1))
        | _ => false)) ∧
    (∀ (df : DF) (c : String) (t : ℚ) (i : Nat) (q : ℚ),
      df.colIdx c = some i →
      quantileLin (presentNums (colCells df i)) (1/4) = some q →
      quantileLin (presentNums (colCells df i)) (3/4) = some q →
      perColFilter .iqr t df c = df) ∧
    (∀ (df : DF) (c : String) (t : ℚ) (i : Nat) (σ2 : ℚ),
      df.colIdx c = some i →
      sampleVarQ (presentNums (colCells df i)) = some σ2 →
      0 < σ2 →
      (perColFilter .zscore t df c).rows = df.rows.filter (fun r =>
        match r.getD i Cell.missing with
        | .num v => decide (0 < t ∧
            (v - (presentNums (colCells df i)).sum /
              ((presentNums (colCells df i)).length : ℚ)) ^ 2 < t ^ 2 * σ2)
        | _ => false)) ∧
    (∀ (df : DF) (c : String) (t : ℚ) (i : Nat),
      df.colIdx c = some i →
      sampleVarQ (presentNums (colCells df i)) = some 0 →
      perColFilter .zscore t df c = df) ∧
    (∀ (c : String) (cs : List String) (m : OutlierMethod) (t : ℚ) (df : DF),
      filterOutliersData (c :: cs) m t df =
        filterOutliersData cs m t (filterOutliersData [c] m t df)) := by
  refine ⟨by
    norm_num [filterOutliersData, perColFilter, DF.colIdx, colIdxAux,
      colCells, presentNums, quantileLin, sortQ, insertSorted,
      List.filterMap_cons, List.filterMap_nil]
    norm_num [show Int.toNat 3 = 3 from rfl],
    ?_, ?_, ?_, ?_, fun c cs m t df => rfl⟩
  · intro df c t i q1 q3 hidx hq1 hq3 hiqr
    have hlen : ¬ (presentNums (colCells df i)).length = 0 := by
      intro h
      rw [show presentNums (colCells df i) = [] from List.length_eq_zero.mp h]
        at hq1
      simp [quantileLin, sortQ] at hq1
    simp only [perColFilter, hidx]
    rw [if_neg hlen, hq1, hq3]
    simp only [if_pos hiqr]
  · intro df c t i q hidx hq1 hq3
    simp only [perColFilter, hidx]
    by_cases hlen : (presentNums (colCells df i)).length = 0
    · rw [if_pos hlen]
    · rw [if_neg hlen, hq1, hq3]
      simp [sub_self]
  · intro df c t i σ2 hidx hvar hpos
    have hlen : ¬ (presentNums (colCells df i)).length = 0 := by
      intro h
      rw [show presentNums (colCells df i) = [] from List.length_eq_zero.mp h]
        at hvar
      simp [sampleVarQ] at hvar
    simp only [perColFilter, hidx]
    rw [if_neg hlen, hvar]
    simp only [if_pos hpos]
  · intro df c t i hidx hvar
    have hlen : ¬ (presentNums (colCells df i)).length = 0 := by
      intro h
      rw [show presentNums (colCells df i) = [] from List.length_eq_zero.mp h]
        at hvar
      simp [sampleVarQ] at hvar
    simp only [perColFilter, hidx]
    rw [if_neg hlen, hvar]
    simp

/-- Witness for C7: on the example column the nonzero-IQR characterization
yields the bound filter with quartiles 40 and 50; a constant column has
zero IQR and zero sample variance, so both rules leave it unchanged; a
column with values 1, 2, 3 has sample variance 1 and is filtered by the
squared z-score keep condition. -/
theorem c7_filter_outliers_witness :
    ((perColFilter .iqr (3/2)
        ⟨[("v", ColType.numeric)],
          [[.num 40], [.num 35], [.num 50], [.num 40], [.num 100]]⟩
        "v").rows =
      (DF.rows ⟨[("v", ColType.numeric)],
          [[.num 40], [.num 35], [.num 50], [.num 40], [.num 100]]⟩).filter
        (fun r =>
          match r.getD 0 Cell.missing with
          | .num v => decide ((40 : ℚ) - 3/2 * (50 - 40) ≤ v ∧
              v ≤ (50 : ℚ) + 3/2 * (50 - 40))
          | _ => false)) ∧
    (perColFilter .iqr 1
        ⟨[("v", ColType.numeric)], [[.num 5], [.num 5], [.num 5]]⟩ "v" =
      ⟨[("v", ColType.numeric)], [[.num 5], [.num 5], [.num 5]]⟩) ∧
    ((perColFilter .zscore 2
        ⟨[("v", ColType.numeric)], [[.num 1], [.num 2], [.num 3]]⟩ "v").rows =
      (DF.rows ⟨[("v", ColType.numeric)],
          [[.num 1], [.num 2], [.num 3]]⟩).filter (fun r =>
        match r.getD 0 Cell.missing with
        | .num v => decide ((0 : ℚ) < 2 ∧
            (v - (presentNums (colCells
                ⟨[("v", ColType.numeric)], [[.num 1], [.num 2], [.num 3]]⟩
                0)).sum /
              ((presentNums (colCells
                ⟨[("v", ColType.numeric)], [[.num 1], [.num 2], [.num 3]]⟩
                0)).length : ℚ)) ^ 2 < (2 : ℚ) ^ 2 * 1)
        | _ => false)) ∧
    (perColFilter .zscore 2
        ⟨[("v", ColType.numeric)], [[.num 5], [.num 5], [.num 5]]⟩ "v" =
      ⟨[("v", ColType.numeric)], [[.num 5], [.num 5], [.num 5]]⟩) :=
  ⟨c7_filter_outliers.2.1 _ "v" (3/2) 0 40 50 (by decide)
     (by norm_num [quantileLin, sortQ, insertSorted, presentNums, colCells, List.filterMap_cons, List.filterMap_nil])
     (by
       norm_num [quantileLin, sortQ, insertSorted, presentNums, colCells,
         List.filterMap_cons, List.filterMap_nil]
       norm_num [show Int.toNat 3 = 3 from rfl])
     (by norm_num),
   c7_filter_outliers.2.2.1 _ "v" 1 0 5 (by decide)
     (by norm_num [quantileLin, sortQ, insertSorted, presentNums, colCells, List.filterMap_cons, List.filterMap_nil, Int.toNat_ofNat])
     (by norm_num [quantileLin, sortQ, insertSorted, presentNums, colCells, List.filterMap_cons, List.filterMap_nil, Int.toNat_ofNat]),
   c7_filter_outliers.2.2.2.1 _ "v" 2 0 1 (by decide)
     (by norm_num [sampleVarQ, presentNums, colCells, List.filterMap_cons, List.filterMap_nil]) (by norm_num),
   c7_filter_outliers.2.2.2.2.1 _ "v" 2 0 (by decide)
     (by norm_num [sampleVarQ, presentNums, colCells, List.filterMap_cons, List.filterMap_nil])⟩

/-- Claim C8: with a nonzero IQR, the IQR filter also removes every row
whose value in the filtered column is missing (a NaN satisfies neither
bound comparison, so the row fails the keep condition). -/
theorem c8_iqr_drops_missing (df : DF) (c : String) (t : ℚ) (i : Nat)
    (q1 q3 : ℚ) (hidx : df.colIdx c = some i)
    (hq1 : quantileLin (presentNums (colCells df i)) (1/4) = some q1)
    (hq3 : quantileLin (presentNums (colCells df i)) (3/4) = some q3)
    (hiqr : 0 < q3 - q1) :
    ∀ r ∈ df.rows, r.getD i Cell.missing = Cell.missing →
      r ∉ (perColFilter .iqr t df c).rows := by
  intro r hr hmiss hmem
  have hlen : ¬ (presentNums (colCells df i)).length = 0 := by
    intro h
    rw [show presentNums (colCells df i) = [] from List.length_eq_zero.mp h]
      at hq1
    simp [quantileLin, sortQ] at hq1
  simp only [perColFilter, hidx] at hmem
  rw [if_neg hlen, hq1, hq3] at hmem
  simp only [if_pos hiqr] at hmem
  have := (List.mem_filter.mp hmem).2
  rw [hmiss] at this
  exact absurd this (by simp)

/-- Witness for C8 on a column with values 1, 2, 3 and one missing cell. -/
theorem c8_iqr_drops_missing_witness :
    [Cell.missing] ∉ (perColFilter .iqr (3/2)
      ⟨[("v", ColType.numeric)],
        [[.num 1], [.num 2], [.num 3], [.missing]]⟩ "v").rows :=
  c8_iqr_drops_missing
    ⟨[("v", ColType.numeric)], [[.num 1], [.num 2], [.num 3], [.missing]]⟩
    "v" (3/2) 0 (3/2) (5/2) (by decide)
    (by norm_num [quantileLin, sortQ, insertSorted, presentNums, colCells, List.filterMap_cons, List.filterMap_nil, Int.toNat_ofNat])
    (by norm_num [quantileLin, sortQ, insertSorted, presentNums, colCells, List.filterMap_cons, List.filterMap_nil, Int.toNat_ofNat])
    (by norm_num) [Cell.missing] (by decide) (by decide)

/-! ## Positional helper lemmas -/

theorem getD_set_self {α} {l : List α} {i : Nat} (h : i < l.length)
    (v d : α) : (l.set i v).getD i d = v := by
  induction l generalizing i with
  | nil => exact absurd h (Nat.not_lt_zero i)
  | cons x xs ih =>
    cases i with
    | zero => rfl
    | succ n => exact ih (Nat.lt_of_succ_lt_succ h)

theorem getD_set_ne {α} {l : List α} {i j : Nat} (h : j ≠ i) (v d : α) :
    (l.set j v).getD i d = l.getD i d := by
  induction l generalizing i j with
  | nil => rfl
  | cons x xs ih =>
    cases j with
    | zero =>
      cases i with
      | zero => exact absurd rfl h
      | succ m => rfl
    | succ n =>
      cases i with
      | zero => rfl
      | succ m => exact ih (fun e => h (by rw [e]))

theorem getD_map {α β} (f : α → β) (l : List α) {k : Nat}
    (hk : k < l.length) (d : α) (e : β) :
    (l.map f).getD k e = f (l.getD k d) := by
  rw [List.getD_eq_getElem _ _ (by simpa using hk), List.getElem_map,
    List.getD_eq_getElem _ _ hk]

theorem set_getD_self {α} {l : List α} {i : Nat} (h : i < l.length) (d : α) :
    l.set i (l.getD i d) = l := by
  induction l generalizing i with
  | nil => rfl
  | cons x xs ih =>
    cases i with
    | zero => rfl
    | succ n =>
      show x :: xs.set n (xs.getD n d) = x :: xs
      rw [ih (Nat.lt_of_succ_lt_succ h)]

/-! ## Claim C4: address cleaning -/

/-- The character class the specification's sentence keeps: letter, digit,
whitespace, comma, period, hyphen (underscore absent). -/
def specKeepCharOrig (c : Char) : Bool :=
  (c.isAlphanum || decide (c ∈ extraLetters)) || c.isWhitespace ||
    c == ',' || c == '.' || c == '-'

/-- The amended character class: the regex `\w` of the source also keeps
the underscore. -/
def specKeepCharAmended (c : Char) : Bool :=
  (c.isAlphanum || decide (c ∈ extraLetters) || c == '_') || c.isWhitespace ||
    c == ',' || c == '.' || c == '-'

/-- The cleaning transform claim C4 describes, with the claim's character
class. -/
def specCleanOrig (s : String) : String :=
  String.mk ((collapseWs (pyStrip s)).toList.filter specKeepCharOrig)

/-- The cleaning transform with the amended character class. -/
def specCleanAmended (s : String) : String :=
  String.mk ((collapseWs (pyStrip s)).toList.filter specKeepCharAmended)

theorem keepAddrChar_eq_amended (c : Char) :
    keepAddrChar c = specKeepCharAmended c := by
  cases h1 : c.isAlphanum <;> cases h2 : (c == '_') <;>
    cases h3 : decide (c ∈ extraLetters) <;>
      simp [keepAddrChar, pyWordChar, specKeepCharAmended, h1, h2, h3]

theorem cleanStr_eq_amended (s : String) : cleanStr s = specCleanAmended s := by
  unfold cleanStr specCleanAmended
  rw [List.filter_congr (fun c _ => keepAddrChar_eq_amended c)]

/-- Counterexample to claim C4: the source regex `[^\w\s,.-]` keeps the
underscore (`\w` matches it), so the cell `ab_cdef` survives unchanged,
while the claim's transform (letters, digits, whitespace, comma, period,
hyphen only) would strip the underscore. -/
theorem c4_counterexample :
    ((clean_address_column "stores" 5
        ⟨[("stores", ColType.object)], [[.str "ab_cdef"]]⟩).1.rows =
      [[Cell.str "ab_cdef"]]) ∧
    specCleanOrig "ab_cdef" = "abcdef" ∧
    Cell.str "ab_cdef" ≠
      (if 5 ≤ (specCleanOrig "ab_cdef").length then
        Cell.str (specCleanOrig "ab_cdef") else Cell.missing) :=
  ⟨by decide, by decide, by decide⟩

/-- Claim C4 (amended): every string cell of the address column becomes the
strip-collapse-filter transform keeping letters, digits, underscore,
whitespace, comma, period and hyphen, invalidated to missing when shorter
than `min_length`. -/
theorem c4_clean_address_amended (df : DF) (minLen : Nat) (addrCol : String)
    (i : Nat) (hidx : df.colIdx addrCol = some i) (k : Nat) (s : String)
    (hk : k < df.rows.length)
    (hcell : (df.rows.getD k []).getD i Cell.missing = Cell.str s)
    (hlen : i < (df.rows.getD k []).length) :
    ((clean_address_column addrCol minLen df).1.rows.getD k []).getD i
        Cell.missing =
      (if minLen ≤ (specCleanAmended s).length then
        Cell.str (specCleanAmended s) else Cell.missing) := by
  simp only [clean_address_column, hidx]
  rw [getD_map _ df.rows hk []]
  rw [getD_set_self hlen, hcell]
  simp only [cleanAddrCell, cellToStr, cleanStr_eq_amended]

/-- Witness for the amended C4 at a concrete container and string cell. -/
theorem c4_clean_address_amended_witness :
    ((clean_address_column "stores" 5
        ⟨[("stores", ColType.object)], [[.str " 12   rue  J@rd*n "]]⟩).1.rows.getD
          0 []).getD 0 Cell.missing =
      (if 5 ≤ (specCleanAmended " 12   rue  J@rd*n ").length then
        Cell.str (specCleanAmended " 12   rue  J@rd*n ") else Cell.missing) :=
  c4_clean_address_amended
    ⟨[("stores", ColType.object)], [[.str " 12   rue  J@rd*n "]]⟩ 5 "stores"
    0 (by decide) 0 " 12   rue  J@rd*n " (by decide) (by decide) (by decide)

/-! ## Claim C5: normalization erases missingness -/

theorem normCell_missing : normCell Cell.missing = Cell.str "nan" := by decide

theorem normCell_nan : normCell (Cell.str "nan") = Cell.str "nan" := by decide

/-- The row-level fold of `normalize_text_columns`. -/
def normFold (idxs : List Nat) (r : List Cell) : List Cell :=
  idxs.foldl (fun r i => r.set i (normCell (r.getD i Cell.missing))) r

theorem normFold_length (idxs : List Nat) (r : List Cell) :
    (normFold idxs r).length = r.length := by
  induction idxs generalizing r with
  | nil => rfl
  | cons j t ih =>
    show (normFold t (r.set j _)).length = r.length
    rw [ih, List.length_set]

theorem normFold_not_mem {idxs : List Nat} {i : Nat} (h : i ∉ idxs)
    (r : List Cell) (d : Cell) : (normFold idxs r).getD i d = r.getD i d := by
  induction idxs generalizing r with
  | nil => rfl
  | cons j t ih =>
    have hj : j ≠ i := fun e => h (e ▸ List.mem_cons_self j t)
    have ht : i ∉ t := fun m => h (List.mem_cons_of_mem _ m)
    show (normFold t (r.set j _)).getD i d = r.getD i d
    rw [ih ht, getD_set_ne hj]

theorem normFold_keeps_nan {idxs : List Nat} {i : Nat} {r : List Cell}
    (hlen : i < r.length) (h : r.getD i Cell.missing = Cell.str "nan") :
    (normFold idxs r).getD i Cell.missing = Cell.str "nan" := by
  induction idxs generalizing r with
  | nil => exact h
  | cons j t ih =>
    show (normFold t (r.set j _)).getD i Cell.missing = Cell.str "nan"
    by_cases hij : j = i
    · subst hij
      refine ih (by rw [List.length_set]; exact hlen) ?_
      rw [getD_set_self hlen, h, normCell_nan]
    · refine ih (by rw [List.length_set]; exact hlen) ?_
      rw [getD_set_ne hij, h]

theorem normFold_missing_to_nan {idxs : List Nat} {i : Nat} {r : List Cell}
    (hmem : i ∈ idxs) (hlen : i < r.length)
    (h : r.getD i Cell.missing = Cell.missing) :
    (normFold idxs r).getD i Cell.missing = Cell.str "nan" := by
  induction idxs generalizing r with
  | nil => exact absurd hmem (List.not_mem_nil i)
  | cons j t ih =>
    show (normFold t (r.set j _)).getD i Cell.missing = Cell.str "nan"
    by_cases hij : j = i
    · subst hij
      refine normFold_keeps_nan (by rw [List.length_set]; exact hlen) ?_
      rw [getD_set_self hlen, h, normCell_missing]
    · have ht : i ∈ t := by
        rcases List.mem_cons.mp hmem with rfl | m
        · exact absurd rfl hij
        · exact m
      refine ih ht (by rw [List.length_set]; exact hlen) ?_
      rw [getD_set_ne hij, h]

theorem normFold_mem_str {idxs : List Nat} {i : Nat} {r : List Cell}
    (hmem : i ∈ idxs) (hlen : i < r.length) :
    ∃ s, (normFold idxs r).getD i Cell.missing = Cell.str s := by
  induction idxs generalizing r with
  | nil => exact absurd hmem (List.not_mem_nil i)
  | cons j t ih =>
    show ∃ s, (normFold t (r.set j _)).getD i Cell.missing = Cell.str s
    by_cases ht : i ∈ t
    · exact ih ht (by rw [List.length_set]; exact hlen)
    · have hij : j = i := by
        rcases List.mem_cons.mp hmem with rfl | m
        · rfl
        · exact absurd m ht
      subst hij
      rw [normFold_not_mem ht, getD_set_self hlen]
      exact ⟨_, rfl⟩

/-- Claim C5: every missing cell of a column processed by
`normalize_text_columns` becomes the non-missing literal string `nan`
(`astype(str)` runs before normalization), so the processed column's
missing-cell count drops to zero. -/
theorem c5_normalize_missing_to_nan (df : DF) (cols : Option (List String))
    (i : Nat) (hi : i ∈ effIdxs df cols)
    (hwf : ∀ r ∈ df.rows, r.length = df.header.length)
    (hibound : i < df.header.length) :
    (∀ k, k < df.rows.length →
      (df.rows.getD k []).getD i Cell.missing = Cell.missing →
      ((normalize_text_columns cols df).1.rows.getD k []).getD i
        Cell.missing = Cell.str "nan") ∧
    countMissing (colCells (normalize_text_columns cols df).1 i) = 0 ∧
    Cell.str "nan" ≠ Cell.missing := by
  refine ⟨?_, ?_, by decide⟩
  · intro k hk hmiss
    show ((df.rows.map (normFold (effIdxs df cols))).getD k []).getD i
        Cell.missing = Cell.str "nan"
    rw [getD_map _ df.rows hk []]
    have hmem : df.rows.getD k [] ∈ df.rows := by
      rw [List.getD_eq_getElem _ _ hk]
      exact List.getElem_mem hk
    exact normFold_missing_to_nan hi (by rw [hwf _ hmem]; exact hibound) hmiss
  · simp only [countMissing]
    rw [List.countP_eq_zero]
    intro c hc
    have : c ∈ (colCells (normalize_text_columns cols df).1 i) := hc
    rw [colCells] at this
    rcases List.mem_map.mp this with ⟨r, hr, rfl⟩
    have hr2 : r ∈ df.rows.map (normFold (effIdxs df cols)) := hr
    rcases List.mem_map.mp hr2 with ⟨r0, hr0, rfl⟩
    rcases normFold_mem_str hi
        (by rw [hwf _ hr0]; exact hibound) with ⟨s, hs⟩
    rw [hs]
    simp

/-- Witness for C5 at a one-column container whose only cell is missing. -/
theorem c5_normalize_missing_to_nan_witness :
    (((normalize_text_columns none
        ⟨[("a", ColType.object)], [[Cell.missing]]⟩).1.rows.getD 0 []).getD 0
      Cell.missing = Cell.str "nan") ∧
    countMissing (colCells (normalize_text_columns none
      ⟨[("a", ColType.object)], [[Cell.missing]]⟩).1 0) = 0 :=
  ⟨(c5_normalize_missing_to_nan ⟨[("a", ColType.object)], [[Cell.missing]]⟩
      none 0 (by decide) (by decide) (by decide)).1 0 (by decide) (by decide),
   (c5_normalize_missing_to_nan ⟨[("a", ColType.object)], [[Cell.missing]]⟩
      none 0 (by decide) (by decide) (by decide)).2.1⟩

/-! ## Claim C3: the Deduplicate - Impute - Normalize round trip -/

/-- Row/column alignment invariant of the Tabular Container. -/
def rowsWF (df : DF) : Prop :=
  ∀ r ∈ df.rows, r.length = df.header.length

/-- Post-impute state of one numeric column: no missing cell is fillable
any more (either none left, or no present value to compute a median
from). -/
def goodNumCol (d : DF) (i : Nat) : Prop :=
  countMissing (colCells d i) = 0 ∨ presentNums (colCells d i) = []

theorem insertSorted_ne_nil (x : ℚ) (l : List ℚ) : insertSorted x l ≠ [] := by
  cases l with
  | nil => simp [insertSorted]
  | cons y ys =>
    unfold insertSorted
    split <;> simp

theorem sortQ_eq_nil_iff (xs : List ℚ) : sortQ xs = [] ↔ xs = [] := by
  cases xs with
  | nil => simp [sortQ]
  | cons x t =>
    simp only [sortQ, List.foldr_cons]
    exact ⟨fun h => absurd h (insertSorted_ne_nil x _), fun h => absurd h (by simp)⟩

theorem quantileLin_eq_none_iff (xs : List ℚ) (q : ℚ) :
    quantileLin xs q = none ↔ xs = [] := by
  unfold quantileLin
  cases h : sortQ xs with
  | nil => simp [h, (sortQ_eq_nil_iff xs).mp h]
  | cons a t =>
    have hx : xs ≠ [] := by
      intro e
      rw [e] at h
      exact absurd h.symm (by simp [sortQ])
    simp [h, hx]

theorem fillCell_none_id (c : Cell) : fillCell none c = c := by
  cases c <;> rfl

theorem fillCell_some_ne_missing (m : ℚ) (c : Cell) :
    fillCell (some m) c ≠ Cell.missing := by
  cases c <;> simp [fillCell]

/-- The data component of `foldSteps` ignores the threaded log. -/
def dataFoldSteps (f : DF → Nat → DF × List String) (df : DF)
    (idxs : List Nat) : DF :=
  idxs.foldl (fun d i => (f d i).1) df

theorem foldSteps_fst_aux (f : DF → Nat → DF × List String)
    (idxs : List Nat) :
    ∀ p : DF × List String,
      (idxs.foldl (fun acc i =>
        let st := f acc.1 i
        (st.1, acc.2 ++ st.2)) p).1 = dataFoldSteps f p.1 idxs := by
  induction idxs with
  | nil => intro p; rfl
  | cons j t ih =>
    intro p
    rw [List.foldl_cons]
    exact ih _

theorem foldSteps_fst (f : DF → Nat → DF × List String) (df : DF)
    (idxs : List Nat) : (foldSteps f df idxs).1 = dataFoldSteps f df idxs :=
  foldSteps_fst_aux f idxs (df, [])

theorem imputeNumIdx_header (st : NumStrategy) (d : DF) (i : Nat) :
    (imputeNumIdx st d i).1.header = d.header := by
  unfold imputeNumIdx
  dsimp only
  split
  · rfl
  · split <;> rfl

theorem imputeTextIdx_header (t : String) (d : DF) (i : Nat) :
    (imputeTextIdx t d i).1.header = d.header := by
  unfold imputeTextIdx
  dsimp only
  split <;> rfl

theorem imputeNumIdx_rows (st : NumStrategy) (d : DF) (i : Nat) :
    (imputeNumIdx st d i).1.rows = d.rows ∨
    ∃ fv, (imputeNumIdx st d i).1.rows =
      d.rows.map (fun r => r.set i (fillCell fv (r.getD i Cell.missing))) := by
  unfold imputeNumIdx
  dsimp only
  split
  · exact Or.inl rfl
  · split
    · exact Or.inl rfl
    · exact Or.inr ⟨_, rfl⟩

theorem imputeTextIdx_rows (t : String) (d : DF) (i : Nat) :
    (imputeTextIdx t d i).1.rows = d.rows ∨
    (imputeTextIdx t d i).1.rows =
      d.rows.map (fun r => r.set i (fillTextCell t (r.getD i Cell.missing))) := by
  unfold imputeTextIdx
  dsimp only
  split
  · exact Or.inl rfl
  · exact Or.inr rfl

theorem colCells_map_set_other {d : DF} {j i : Nat} (h : j ≠ i)
    (g : Cell → Cell) :
    colCells { d with rows := d.rows.map (fun r =>
      r.set j (g (r.getD j Cell.missing))) } i = colCells d i := by
  simp only [colCells, List.map_map]
  exact List.map_congr_left (fun r _ => getD_set_ne h _ _)

theorem colCells_map_set_self {d : DF} {i : Nat}
    (h : ∀ r ∈ d.rows, i < r.length) (g : Cell → Cell) :
    colCells { d with rows := d.rows.map (fun r =>
      r.set i (g (r.getD i Cell.missing))) } i = (colCells d i).map g := by
  simp only [colCells, List.map_map]
  exact List.map_congr_left (fun r hr => getD_set_self (h r hr) _ _)

theorem imputeNumIdx_colCells_other (st : NumStrategy) (d : DF) {j i : Nat}
    (h : j ≠ i) : colCells (imputeNumIdx st d j).1 i = colCells d i := by
  rcases imputeNumIdx_rows st d j with hr | ⟨fv, hr⟩
  · unfold colCells
    rw [hr]
  · have := colCells_map_set_other (d := d) h (fillCell fv)
    unfold colCells at this ⊢
    rw [hr]
    exact this

theorem imputeTextIdx_colCells_other (t : String) (d : DF) {j i : Nat}
    (h : j ≠ i) : colCells (imputeTextIdx t d j).1 i = colCells d i := by
  rcases imputeTextIdx_rows t d j with hr | hr
  · unfold colCells
    rw [hr]
  · have := colCells_map_set_other (d := d) h (fillTextCell t)
    unfold colCells at this ⊢
    rw [hr]
    exact this

theorem imputeNumIdx_wf (st : NumStrategy) (d : DF) (i : Nat)
    (hwf : rowsWF d) : rowsWF (imputeNumIdx st d i).1 := by
  intro r hr
  rw [imputeNumIdx_header]
  rcases imputeNumIdx_rows st d i with h | ⟨fv, h⟩
  · rw [h] at hr
    exact hwf r hr
  · rw [h] at hr
    rcases List.mem_map.mp hr with ⟨r0, hr0, rfl⟩
    rw [List.length_set]
    exact hwf r0 hr0

theorem imputeTextIdx_wf (t : String) (d : DF) (i : Nat)
    (hwf : rowsWF d) : rowsWF (imputeTextIdx t d i).1 := by
  intro r hr
  rw [imputeTextIdx_header]
  rcases imputeTextIdx_rows t d i with h | h
  · rw [h] at hr
    exact hwf r hr
  · rw [h] at hr
    rcases List.mem_map.mp hr with ⟨r0, hr0, rfl⟩
    rw [List.length_set]
    exact hwf r0 hr0

theorem dataFold_header {f : DF → Nat → DF × List String}
    (hf : ∀ d i, (f d i).1.header = d.header) :
    ∀ (idxs : List Nat) (d : DF),
      (dataFoldSteps f d idxs).header = d.header := by
  intro idxs
  induction idxs with
  | nil => intro d; rfl
  | cons j t ih =>
    intro d
    show (dataFoldSteps f (f d j).1 t).header = d.header
    rw [ih]
    exact hf d j

theorem dataFold_wf {f : DF → Nat → DF × List String}
    (hw : ∀ d i, rowsWF d → rowsWF (f d i).1) :
    ∀ (idxs : List Nat) (d : DF), rowsWF d →
      rowsWF (dataFoldSteps f d idxs) := by
  intro idxs
  induction idxs with
  | nil => intro d h; exact h
  | cons j t ih =>
    intro d h
    exact ih _ (hw d j h)

theorem dataFold_colCells_not_mem {f : DF → Nat → DF × List String}
    (hp : ∀ (d : DF) (i j : Nat), i ≠ j → colCells (f d i).1 j = colCells d j) :
    ∀ (idxs : List Nat) (d : DF) (j : Nat), j ∉ idxs →
      colCells (dataFoldSteps f d idxs) j = colCells d j := by
  intro idxs
  induction idxs with
  | nil => intro d j _; rfl
  | cons k t ih =>
    intro d j hj
    show colCells (dataFoldSteps f (f d k).1 t) j = colCells d j
    rw [ih _ j (fun m => hj (List.mem_cons_of_mem _ m))]
    exact hp d k j (fun e => hj (e ▸ List.mem_cons_self k t))

theorem dataFold_id {f : DF → Nat → DF × List String} :
    ∀ (idxs : List Nat) (d : DF), (∀ i ∈ idxs, (f d i).1 = d) →
      dataFoldSteps f d idxs = d := by
  intro idxs
  induction idxs with
  | nil => intro d _; rfl
  | cons j t ih =>
    intro d h
    show dataFoldSteps f (f d j).1 t = d
    rw [h j (List.mem_cons_self j t)]
    exact ih d (fun i hi => h i (List.mem_cons_of_mem _ hi))

theorem map_fill_none_id (d : DF) (i : Nat) (hwf : rowsWF d)
    (hi : i < d.header.length) :
    d.rows.map (fun r => r.set i (fillCell none (r.getD i Cell.missing))) =
      d.rows :=
  List.map_congr_left (fun r hr => by
    rw [fillCell_none_id, set_getD_self (by rw [hwf r hr]; exact hi)]
    rfl) |>.trans (List.map_id d.rows)

/-- Post-condition of one median impute step: it leaves its own column
either free of missing cells or without any present value. -/
theorem imputeNum_median_good (d : DF) (i : Nat) (hwf : rowsWF d)
    (hi : i < d.header.length) :
    goodNumCol (imputeNumIdx .median d i).1 i := by
  by_cases hn : countMissing (colCells d i) = 0
  · have hid : (imputeNumIdx .median d i).1 = d := by
      unfold imputeNumIdx
      dsimp only
      rw [if_pos hn]
    rw [hid]
    exact Or.inl hn
  · cases hm : medianQ (presentNums (colCells d i)) with
    | none =>
      have hxs : presentNums (colCells d i) = [] :=
        (quantileLin_eq_none_iff _ _).mp hm
      have hid : (imputeNumIdx .median d i).1 = d := by
        unfold imputeNumIdx
        dsimp only
        rw [if_neg hn]
        simp only [numericFillValue, hm]
        rw [map_fill_none_id d i hwf hi]
      rw [hid]
      exact Or.inr hxs
    | some m =>
      have hrows : (imputeNumIdx .median d i).1 =
          { d with rows := d.rows.map (fun r =>
            r.set i (fillCell (some m) (r.getD i Cell.missing))) } := by
        unfold imputeNumIdx
        dsimp only
        rw [if_neg hn]
        simp only [numericFillValue, hm]
      rw [hrows]
      left
      rw [colCells_map_set_self (fun r hr => by rw [hwf r hr]; exact hi)
        (fillCell (some m))]
      simp only [countMissing]
      rw [List.countP_eq_zero]
      intro c hc
      rcases List.mem_map.mp hc with ⟨c0, _, rfl⟩
      simpa using fillCell_some_ne_missing m c0

/-- A median impute step on a post-impute column changes nothing. -/
theorem imputeNum_median_id (d : DF) (i : Nat) (hwf : rowsWF d)
    (hi : i < d.header.length) (hg : goodNumCol d i) :
    (imputeNumIdx .median d i).1 = d := by
  by_cases hn : countMissing (colCells d i) = 0
  · unfold imputeNumIdx
    dsimp only
    rw [if_pos hn]
  · rcases hg with h0 | hxs
    · exact absurd h0 hn
    · have hm : medianQ (presentNums (colCells d i)) = none := by
        rw [hxs]
        rfl
      unfold imputeNumIdx
      dsimp only
      rw [if_neg hn]
      simp only [numericFillValue, hm]
      rw [map_fill_none_id d i hwf hi]

/-- A text impute step on a column without missing cells changes nothing. -/
theorem imputeText_id (t : String) (d : DF) (i : Nat)
    (h0 : countMissing (colCells d i) = 0) : (imputeTextIdx t d i).1 = d := by
  unfold imputeTextIdx
  dsimp only
  rw [if_pos h0]

theorem normalize_none_data (d : DF) : (normalize_text_columns none d).1 =
    { d with rows := d.rows.map (normFold (objectIdxs d)) } := rfl

theorem normalize_header (cols : Option (List String)) (d : DF) :
    (normalize_text_columns cols d).1.header = d.header := rfl

theorem normalize_wf (d : DF) (hwf : rowsWF d) :
    rowsWF (normalize_text_columns none d).1 := by
  intro r hr
  rw [normalize_header]
  rw [normalize_none_data] at hr
  rcases List.mem_map.mp hr with ⟨r0, hr0, rfl⟩
  rw [normFold_length]
  exact hwf r0 hr0

theorem normalize_colCells_not_object (d : DF) {i : Nat}
    (h : i ∉ objectIdxs d) :
    colCells (normalize_text_columns none d).1 i = colCells d i := by
  rw [normalize_none_data]
  simp only [colCells, List.map_map]
  exact List.map_congr_left (fun r _ => normFold_not_mem h r _)

theorem mem_objectIdxs_lt {d : DF} {i : Nat} (h : i ∈ objectIdxs d) :
    i < d.header.length :=
  List.mem_range.mp (List.mem_filter.mp h).1

theorem mem_numericIdxs_lt {d : DF} {i : Nat} (h : i ∈ numericIdxs d) :
    i < d.header.length :=
  List.mem_range.mp (List.mem_filter.mp h).1

theorem numericIdxs_not_objectIdxs {d : DF} {i : Nat}
    (h : i ∈ numericIdxs d) : i ∉ objectIdxs d := by
  intro ho
  have hib : i < d.header.length := mem_numericIdxs_lt h
  have h1 := (List.mem_filter.mp h).2
  have h2 := (List.mem_filter.mp ho).2
  rw [decide_eq_true_eq, List.getD_eq_getElem _ _ hib] at h1 h2
  rw [h1] at h2
  exact ColType.noConfusion h2

theorem numericIdxs_congr {d d' : DF} (h : d.header = d'.header) :
    numericIdxs d = numericIdxs d' := by
  unfold numericIdxs
  rw [h]

theorem objectIdxs_congr {d d' : DF} (h : d.header = d'.header) :
    objectIdxs d = objectIdxs d' := by
  unfold objectIdxs
  rw [h]

/-- After normalization every cell of an object column is a string, hence
the column has no missing cell. -/
theorem normalize_object_no_missing (d : DF) {i : Nat}
    (hi : i ∈ objectIdxs d) (hwf : rowsWF d) :
    countMissing (colCells (normalize_text_columns none d).1 i) = 0 := by
  have hib : i < d.header.length := mem_objectIdxs_lt hi
  rw [normalize_none_data]
  simp only [colCells, List.map_map, countMissing]
  rw [List.countP_eq_zero]
  intro c hc
  rcases List.mem_map.mp hc with ⟨r, hr, rfl⟩
  rcases normFold_mem_str hi (by rw [hwf r hr]; exact hib) with ⟨s, hs⟩
  simp only [Function.comp, decide_eq_true_eq]
  rw [hs]
  simp

theorem dedupByKeyAux_subset (key : List Cell → List Cell) :
    ∀ (l : List (List Cell)) (seen : List (List Cell)) (r : List Cell),
      r ∈ dedupByKeyAux key seen l → r ∈ l := by
  intro l
  induction l with
  | nil => intro seen r h; exact absurd h (List.not_mem_nil r)
  | cons x t ih =>
    intro seen r h
    rw [dedupByKeyAux] at h
    split at h
    · exact List.mem_cons_of_mem _ (ih _ r h)
    · rcases List.mem_cons.mp h with rfl | h2
      · exact List.mem_cons_self _ _
      · exact List.mem_cons_of_mem _ (ih _ r h2)

theorem remove_duplicates_header (s : Option (List String)) (d : DF) :
    (remove_duplicates s d).1.header = d.header := rfl

theorem remove_duplicates_wf (s : Option (List String)) (d : DF)
    (hwf : rowsWF d) : rowsWF (remove_duplicates s d).1 := by
  intro r hr
  exact hwf r (dedupByKeyAux_subset _ _ _ _ hr)

theorem handle_missing_fst (st : NumStrategy) (tf : String) (d : DF) :
    (handle_missing_values st tf d).1 =
      dataFoldSteps (imputeTextIdx tf)
        (dataFoldSteps (imputeNumIdx st) d (numericIdxs d))
        (objectIdxs (dataFoldSteps (imputeNumIdx st) d (numericIdxs d))) := by
  show (foldSteps (imputeTextIdx tf)
      (foldSteps (imputeNumIdx st) d (numericIdxs d)).1
      (objectIdxs (foldSteps (imputeNumIdx st) d (numericIdxs d)).1)).1 = _
  rw [foldSteps_fst, foldSteps_fst]

/-- After the numeric median fold, every processed column satisfies the
post-impute condition. -/
theorem numFold_good :
    ∀ (idxs : List Nat) (d : DF), rowsWF d → idxs.Nodup →
      (∀ j ∈ idxs, j < d.header.length) →
      ∀ i ∈ idxs,
        goodNumCol (dataFoldSteps (imputeNumIdx .median) d idxs) i := by
  intro idxs
  induction idxs with
  | nil => intro d _ _ _ i hi; exact absurd hi (List.not_mem_nil i)
  | cons j t ih =>
    intro d hwf hnd hb i hi
    have hwf' : rowsWF (imputeNumIdx .median d j).1 :=
      imputeNumIdx_wf _ _ _ hwf
    have hh' : (imputeNumIdx .median d j).1.header = d.header :=
      imputeNumIdx_header _ _ _
    show goodNumCol (dataFoldSteps (imputeNumIdx .median)
      (imputeNumIdx .median d j).1 t) i
    rcases List.mem_cons.mp hi with rfl | hit
    · have hjt : i ∉ t := (List.nodup_cons.mp hnd).1
      have hg : goodNumCol (imputeNumIdx .median d i).1 i :=
        imputeNum_median_good d i hwf (hb i (List.mem_cons_self i t))
      have hpres := dataFold_colCells_not_mem
        (fun d0 i0 j0 hne => imputeNumIdx_colCells_other .median d0 hne)
        t (imputeNumIdx .median d i).1 i hjt
      unfold goodNumCol at hg ⊢
      rw [hpres]
      exact hg
    · exact ih _ hwf' (List.nodup_cons.mp hnd).2
        (fun k hk => by rw [hh']; exact hb k (List.mem_cons_of_mem _ hk))
        i hit

/-- A default impute pass changes no data on a frame whose numeric columns
are post-impute and whose text columns have no missing cells. -/
theorem impute_id_of_conditions (tf : String) (p : DF) (hwfP : rowsWF p)
    (goodP : ∀ i ∈ numericIdxs p, goodNumCol p i)
    (textP : ∀ i ∈ objectIdxs p, countMissing (colCells p i) = 0) :
    (handle_missing_values .median tf p).1 = p := by
  rw [handle_missing_fst]
  have hnum_id : dataFoldSteps (imputeNumIdx .median) p (numericIdxs p) = p :=
    dataFold_id _ p (fun i hi =>
      imputeNum_median_id p i hwfP (mem_numericIdxs_lt hi) (goodP i hi))
  rw [hnum_id]
  exact dataFold_id _ p (fun i hi => imputeText_id tf p i (textP i hi))

/-- The output of one full pass is well formed, its numeric columns are
post-impute, and its text columns have no missing cells. -/
theorem pipeline_conditions (df : DF) (hwf : rowsWF df) :
    rowsWF (pipelineOnce df).1 ∧
    (∀ i ∈ numericIdxs (pipelineOnce df).1, goodNumCol (pipelineOnce df).1 i) ∧
    (∀ i ∈ objectIdxs (pipelineOnce df).1,
      countMissing (colCells (pipelineOnce df).1 i) = 0) := by
  show rowsWF (normalize_text_columns none
      (handle_missing_values .median "unknown"
        (remove_duplicates none df).1).1).1 ∧
    (∀ i ∈ numericIdxs (normalize_text_columns none
        (handle_missing_values .median "unknown"
          (remove_duplicates none df).1).1).1,
      goodNumCol (normalize_text_columns none
        (handle_missing_values .median "unknown"
          (remove_duplicates none df).1).1).1 i) ∧
    (∀ i ∈ objectIdxs (normalize_text_columns none
        (handle_missing_values .median "unknown"
          (remove_duplicates none df).1).1).1,
      countMissing (colCells (normalize_text_columns none
        (handle_missing_values .median "unknown"
          (remove_duplicates none df).1).1).1 i) = 0)
  set d1 := (remove_duplicates none df).1 with hd1
  set d2 := (handle_missing_values .median "unknown" d1).1 with hd2v
  have hwf1 : rowsWF d1 := remove_duplicates_wf none df hwf
  have hd2 : d2 = dataFoldSteps (imputeTextIdx "unknown")
      (dataFoldSteps (imputeNumIdx .median) d1 (numericIdxs d1))
      (objectIdxs (dataFoldSteps (imputeNumIdx .median) d1 (numericIdxs d1))) :=
    handle_missing_fst .median "unknown" d1
  have hA_h : (dataFoldSteps (imputeNumIdx .median) d1
      (numericIdxs d1)).header = d1.header :=
    dataFold_header (fun d i => imputeNumIdx_header .median d i) _ d1
  have hd2_h : d2.header = d1.header := by
    rw [hd2]
    exact (dataFold_header (fun d i => imputeTextIdx_header "unknown" d i)
      _ _).trans hA_h
  have hwfA : rowsWF (dataFoldSteps (imputeNumIdx .median) d1
      (numericIdxs d1)) :=
    dataFold_wf (fun d i => imputeNumIdx_wf .median d i) _ d1 hwf1
  have hwf2 : rowsWF d2 := by
    rw [hd2]
    exact dataFold_wf (fun d i => imputeTextIdx_wf "unknown" d i) _ _ hwfA
  have hp1_h : (normalize_text_columns none d2).1.header = d2.header :=
    normalize_header none d2
  refine ⟨normalize_wf d2 hwf2, ?_, ?_⟩
  · intro i hi
    have hi1 : i ∈ numericIdxs d1 := by
      rw [← numericIdxs_congr (hp1_h.trans hd2_h)]
      exact hi
    have hgA : goodNumCol (dataFoldSteps (imputeNumIdx .median) d1
        (numericIdxs d1)) i :=
      numFold_good (numericIdxs d1) d1 hwf1
        ((List.nodup_range _).filter _)
        (fun j hj => mem_numericIdxs_lt hj) i hi1
    have hiA : i ∈ numericIdxs (dataFoldSteps (imputeNumIdx .median) d1
        (numericIdxs d1)) := by
      rw [numericIdxs_congr hA_h]
      exact hi1
    have hccd2 : colCells d2 i = colCells (dataFoldSteps (imputeNumIdx .median)
        d1 (numericIdxs d1)) i := by
      rw [hd2]
      exact dataFold_colCells_not_mem
        (fun d0 i0 j0 hne => imputeTextIdx_colCells_other "unknown" d0 hne)
        _ _ i (numericIdxs_not_objectIdxs hiA)
    have hid2 : i ∈ numericIdxs d2 := by
      rw [numericIdxs_congr hd2_h]
      exact hi1
    have hccp : colCells (normalize_text_columns none d2).1 i =
        colCells d2 i :=
      normalize_colCells_not_object d2 (numericIdxs_not_objectIdxs hid2)
    unfold goodNumCol at hgA ⊢
    rw [hccp, hccd2]
    exact hgA
  · intro i hi
    have hi2 : i ∈ objectIdxs d2 := by
      rw [← objectIdxs_congr hp1_h]
      exact hi
    exact normalize_object_no_missing d2 hi2 hwf2

/-- A deduplication that changes nothing logs nothing. -/
theorem remove_duplicates_log_nil (s : Option (List String)) (d : DF)
    (h : (remove_duplicates s d).1 = d) : (remove_duplicates s d).2 = [] := by
  have h2 : (remove_duplicates s d).1.rows = d.rows := by rw [h]
  unfold remove_duplicates at h2 ⊢
  dsimp only at h2 ⊢
  rw [h2]
  simp

/-- Counterexample to claim C3: on the container with the single text
column `code` holding `ABC` and `abc`, the first pass lowercases both codes
to `abc`, so the second pass removes a row (the data is not a fixed point)
and logs a Deduplicate entry; moreover Normalize logs its column count on
every pass, including passes that change nothing. -/
theorem c3_counterexample :
    ((pipelineOnce (pipelineOnce
        ⟨[("code", ColType.object)], [[.str "ABC"], [.str "abc"]]⟩).1).1 ≠
      (pipelineOnce
        ⟨[("code", ColType.object)], [[.str "ABC"], [.str "abc"]]⟩).1) ∧
    "Doublons supprimés: 1" ∈ (pipelineOnce (pipelineOnce
      ⟨[("code", ColType.object)], [[.str "ABC"], [.str "abc"]]⟩).1).2 ∧
    "Normalisation texte: 1 colonnes" ∈ (pipelineOnce (pipelineOnce
      ⟨[("code", ColType.object)], [[.str "ABC"], [.str "abc"]]⟩).1).2 :=
  ⟨by decide, by decide, by decide⟩

/-- Claim C3 (amended): when the second pass's Deduplicate finds no new
duplicates (normalization may merge keys) and its Normalize changes no
cell, the second pass leaves the data unchanged — in particular the Impute
stage never changes data on a first-pass output — and appends no
Deduplicate log entry; Normalize, however, appends its column-count log
entry on every pass. -/
theorem c3_round_trip_amended (df : DF) (hwf : rowsWF df)
    (hd : (remove_duplicates none (pipelineOnce df).1).1 = (pipelineOnce df).1)
    (hn : (normalize_text_columns none (pipelineOnce df).1).1 =
      (pipelineOnce df).1) :
    (pipelineOnce (pipelineOnce df).1).1 = (pipelineOnce df).1 ∧
    (remove_duplicates none (pipelineOnce df).1).2 = [] ∧
    (normalize_text_columns none (pipelineOnce df).1).2 =
      ["Normalisation texte: " ++
        toString (objectIdxs (pipelineOnce df).1).length ++ " colonnes"] := by
  have hcond := pipeline_conditions df hwf
  have himp : (handle_missing_values .median "unknown"
      (pipelineOnce df).1).1 = (pipelineOnce df).1 :=
    impute_id_of_conditions "unknown" _ hcond.1 hcond.2.1 hcond.2.2
  refine ⟨?_, remove_duplicates_log_nil none _ hd, rfl⟩
  show (normalize_text_columns none
    (handle_missing_values .median "unknown"
      (remove_duplicates none (pipelineOnce df).1).1).1).1 =
    (pipelineOnce df).1
  rw [hd, himp, hn]

/-- Witness for the amended C3 on a numeric container that the pipeline
leaves unchanged. -/
theorem c3_round_trip_amended_witness :
    ((pipelineOnce (pipelineOnce
        ⟨[("a", ColType.numeric)], [[.num 1], [.num 2]]⟩).1).1 =
      (pipelineOnce ⟨[("a", ColType.numeric)], [[.num 1], [.num 2]]⟩).1) ∧
    ((remove_duplicates none (pipelineOnce
        ⟨[("a", ColType.numeric)], [[.num 1], [.num 2]]⟩).1).2 = []) ∧
    ((normalize_text_columns none (pipelineOnce
        ⟨[("a", ColType.numeric)], [[.num 1], [.num 2]]⟩).1).2 =
      ["Normalisation texte: " ++
        toString (objectIdxs (pipelineOnce
          ⟨[("a", ColType.numeric)], [[.num 1], [.num 2]]⟩).1).length ++
        " colonnes"]) :=
  c3_round_trip_amended ⟨[("a", ColType.numeric)], [[.num 1], [.num 2]]⟩
    (by intro r hr; fin_cases hr <;> rfl)
    (by decide) (by decide)

end OpenDataPipeline
